import Mathlib

/-!
Shallow embedding of `src/assignment1/producer_consumer.py`.

`SharedQueue` models the lock-protected state of the Python class of the same
name: the buffer list `queue`, the capacity `max_size`, and the `closed` flag.
Every method body of the Python class runs while holding the single lock that
both condition variables share, so each method's effect on the protected state
is one atomic transition; the definitions below are exactly those transitions.
Waits on the condition variables are modelled by explicit environment
schedules: lists of atomic queue operations performed by the other threads
while the caller is blocked.
-/

namespace PC

variable {α : Type} {β : Type} {E : Type}

/-- State of a `SharedQueue` object: the Python `__init__` sets
`self.queue = []`, `self.max_size = max_size`, `self.closed = False`. -/
structure SharedQueue (α : Type) where
  queue : List α
  max_size : Nat
  closed : Bool
deriving DecidableEq

/-- A freshly constructed `SharedQueue(max_size)`. -/
def SharedQueue.mk0 (maxSize : Nat) : SharedQueue α :=
  ⟨[], maxSize, false⟩

/-- Outcome of one atomic attempt of `SharedQueue.put`:
the wait loop `while len(self.queue) >= self.max_size and not self.closed`
keeps the caller blocked on a full open queue; once it exits, `put` returns
`False` when `self.closed`, else appends and returns `True`. -/
inductive PutResult where
  | accepted
  | rejectedClosed
  | blockedFull
deriving DecidableEq

/-- The atomic commit of `SharedQueue.put` on the locked state: if `closed`,
reject without enqueuing; else if there is space, append to the tail and
accept; else the caller is still blocked in the wait loop (no state change). -/
def putStep (s : SharedQueue α) (x : α) : SharedQueue α × PutResult :=
  if s.closed then (s, PutResult.rejectedClosed)
  else if s.queue.length < s.max_size then
    ({ s with queue := s.queue ++ [x] }, PutResult.accepted)
  else (s, PutResult.blockedFull)

/-- The atomic commit of `SharedQueue.get` on the locked state: after the wait
loop, `if len(self.queue) == 0: return None`, else `item = self.queue.pop(0)`.
`none` is the Python `None` return (timeout, or closed and empty). -/
def getStep (s : SharedQueue α) : SharedQueue α × Option α :=
  match s.queue with
  | [] => (s, none)
  | x :: rest => ({ s with queue := rest }, some x)

/-- `SharedQueue.close`: sets `self.closed = True` and wakes all waiters
(the wakeups are captured by the environment-schedule model). -/
def close (s : SharedQueue α) : SharedQueue α :=
  { s with closed := true }

/-- `SharedQueue.is_empty`. -/
def is_empty (s : SharedQueue α) : Bool :=
  s.queue.isEmpty

/-- `SharedQueue.size`. -/
def size (s : SharedQueue α) : Nat :=
  s.queue.length

/-- One atomic queue operation, as performed by some thread while it holds
the queue's lock. -/
inductive Op (α : Type) where
  | doPut (x : α)
  | doGet
  | doClose
deriving DecidableEq

/-- Effect of one atomic operation on the locked state. -/
def applyOp (s : SharedQueue α) : Op α → SharedQueue α
  | Op.doPut x => (putStep s x).1
  | Op.doGet => (getStep s).1
  | Op.doClose => close s

/-- Run a sequence of atomic operations (an interleaving of all threads'
critical sections, in the order the lock was acquired). -/
def runOps : SharedQueue α → List (Op α) → SharedQueue α
  | s, [] => s
  | s, op :: rest => runOps (applyOp s op) rest

/-- The items accepted by `put` along a trace, in the order they entered the
buffer. -/
def acceptedOf : SharedQueue α → List (Op α) → List α
  | _, [] => []
  | s, Op.doPut x :: rest =>
      (if (putStep s x).2 = PutResult.accepted then [x] else [])
        ++ acceptedOf (putStep s x).1 rest
  | s, Op.doGet :: rest => acceptedOf (getStep s).1 rest
  | s, Op.doClose :: rest => acceptedOf (close s) rest

/-- The items returned by `get` along a trace, in the order they left the
buffer. -/
def dequeuedOf : SharedQueue α → List (Op α) → List α
  | _, [] => []
  | s, Op.doPut x :: rest => dequeuedOf (putStep s x).1 rest
  | s, Op.doGet :: rest => (getStep s).2.toList ++ dequeuedOf (getStep s).1 rest
  | s, Op.doClose :: rest => dequeuedOf (close s) rest

/-- Conservation: along any interleaving, the items dequeued so far followed
by the current buffer are exactly the initial buffer followed by the items
accepted so far. -/
theorem dequeued_append_buffer (ops : List (Op α)) :
    ∀ s : SharedQueue α,
      dequeuedOf s ops ++ (runOps s ops).queue = s.queue ++ acceptedOf s ops := by
  induction ops with
  | nil => intro s; simp [dequeuedOf, runOps, acceptedOf]
  | cons op rest ih =>
      intro s
      cases op with
      | doPut x =>
          simp only [dequeuedOf, runOps, acceptedOf, applyOp]
          by_cases hc : s.closed
          · simp [putStep, hc, ih]
          · by_cases hl : s.queue.length < s.max_size
            · simp [putStep, hc, hl, ih]
            · simp [putStep, hc, hl, ih]
      | doGet =>
          simp only [dequeuedOf, runOps, acceptedOf, applyOp]
          cases hq : s.queue with
          | nil => simp [getStep, hq, ih]
          | cons y ys =>
              have h := ih { s with queue := ys }
              simp [getStep, hq, h]
      | doClose =>
          simp only [dequeuedOf, runOps, acceptedOf, applyOp]
          simp [close, ih]

/-- C1: the queue is strict FIFO across all producers.  Starting from a fresh
queue, along any interleaving of atomic `put`/`get`/`close` operations
(whichever thread performed them), the sequence of items returned by `get`
followed by the items still buffered equals the sequence of items accepted by
`put`, in entry order; in particular the dequeued sequence is a prefix of the
accepted sequence, so item A exits before item B exactly when A entered before
B, every accepted item exits at most once, and an accepted item that never
exits is still in the buffer when the trace (and the queue) is abandoned. -/
theorem claim_C1_fifo (C : Nat) (ops : List (Op α)) :
    dequeuedOf (SharedQueue.mk0 C) ops ++ (runOps (SharedQueue.mk0 C) ops).queue
        = acceptedOf (SharedQueue.mk0 C) ops
      ∧ dequeuedOf (SharedQueue.mk0 C) ops <+: acceptedOf (SharedQueue.mk0 C) ops := by
  have h := dequeued_append_buffer ops (SharedQueue.mk0 (α := α) C)
  simp only [SharedQueue.mk0, List.nil_append] at h
  exact ⟨h, ⟨(runOps (SharedQueue.mk0 C) ops).queue, h⟩⟩

theorem applyOp_max_size (s : SharedQueue α) (op : Op α) :
    (applyOp s op).max_size = s.max_size := by
  cases op with
  | doPut x =>
      simp only [applyOp, putStep]
      split
      · rfl
      · split <;> rfl
  | doGet =>
      simp only [applyOp, getStep]
      cases s.queue <;> simp
  | doClose => simp [applyOp, close]

theorem applyOp_length_le (s : SharedQueue α) (op : Op α)
    (h : s.queue.length ≤ s.max_size) :
    (applyOp s op).queue.length ≤ s.max_size := by
  cases op with
  | doPut x =>
      simp only [applyOp, putStep]
      split
      · exact h
      · split
        · simpa using by omega
        · exact h
  | doGet =>
      simp only [applyOp, getStep]
      cases hq : s.queue with
      | nil => exact h
      | cons y ys => simp [hq] at h ⊢; omega
  | doClose => simpa [applyOp, close] using h

theorem runOps_length_le (ops : List (Op α)) :
    ∀ s : SharedQueue α, s.queue.length ≤ s.max_size →
      (runOps s ops).queue.length ≤ s.max_size := by
  induction ops with
  | nil => intro s h; simpa [runOps] using h
  | cons op rest ih =>
      intro s h
      have h1 := applyOp_length_le s op h
      have h2 := ih (applyOp s op) (by rw [applyOp_max_size]; exact h1)
      rwa [applyOp_max_size] at h2

/-- C2: for every queue constructed with capacity `C ≥ 1`, the buffer length
never exceeds `C` at any observable instant: after any interleaving of atomic
`put`/`get`/`close` operations starting from the fresh queue, the length is
at most `C` (every prefix of a trace is itself a trace, so this covers every
observation point). -/
theorem claim_C2_capacity (C : Nat) (ops : List (Op α)) (_h : 1 ≤ C) :
    (runOps (SharedQueue.mk0 C) ops).queue.length ≤ C := by
  exact runOps_length_le ops (SharedQueue.mk0 C) (by simp [SharedQueue.mk0])

theorem claim_C2_capacity_witness :
    1 ≤ 2 ∧
      (runOps (SharedQueue.mk0 2) [Op.doPut (5 : Nat), Op.doPut 6, Op.doPut 7]).queue.length ≤ 2 :=
  ⟨by decide, claim_C2_capacity 2 [Op.doPut 5, Op.doPut 6, Op.doPut 7] (by decide)⟩

theorem applyOp_closed (s : SharedQueue α) (op : Op α) (h : s.closed = true) :
    (applyOp s op).closed = true := by
  cases op with
  | doPut x => simp [applyOp, putStep, h]
  | doGet =>
      simp only [applyOp, getStep]
      cases s.queue <;> simp [h]
  | doClose => simp [applyOp, close]

theorem runOps_closed (ops : List (Op α)) :
    ∀ s : SharedQueue α, s.closed = true → (runOps s ops).closed = true := by
  induction ops with
  | nil => intro s h; simpa [runOps] using h
  | cons op rest ih => intro s h; exact ih _ (applyOp_closed s op h)

theorem acceptedOf_closed (ops : List (Op α)) :
    ∀ s : SharedQueue α, s.closed = true → acceptedOf s ops = [] := by
  induction ops with
  | nil => intro s _; simp [acceptedOf]
  | cons op rest ih =>
      intro s h
      cases op with
      | doPut x =>
          simp only [acceptedOf, putStep, h, if_true]
          exact ih s h
      | doGet =>
          simp only [acceptedOf]
          exact ih _ (by simpa using applyOp_closed s Op.doGet h)
      | doClose =>
          simp only [acceptedOf]
          exact ih _ (by simp [close])

/-- C3: `put` decides accept-or-reject atomically on the locked state.
Whenever `closed` is observed `true`, `put` returns `False` and leaves the
buffer unchanged; whenever the queue is open and has space, `put` appends the
item to the tail and returns `True`; and once `closed` is `true` it stays
`true` and no item is ever accepted by the queue again along any further
interleaving.  (The `notify` of one waiting `get` on accept is a wakeup, not
a state change; it is subsumed by the environment-schedule model.) -/
theorem claim_C3_put_atomic (s : SharedQueue α) (x : α) :
    (s.closed = true → putStep s x = (s, PutResult.rejectedClosed))
      ∧ (s.closed = false → s.queue.length < s.max_size →
          putStep s x = ({ s with queue := s.queue ++ [x] }, PutResult.accepted))
      ∧ (∀ ops : List (Op α), s.closed = true →
          acceptedOf s ops = [] ∧ (runOps s ops).closed = true) := by
  refine ⟨?_, ?_, ?_⟩
  · intro h; simp [putStep, h]
  · intro h hl; simp [putStep, h, hl]
  · intro ops h
    exact ⟨acceptedOf_closed ops s h, runOps_closed ops s h⟩

theorem claim_C3_put_atomic_witness :
    putStep (⟨[], 3, true⟩ : SharedQueue Nat) 7 = (⟨[], 3, true⟩, PutResult.rejectedClosed)
      ∧ acceptedOf (⟨[], 3, true⟩ : SharedQueue Nat) [Op.doPut 7, Op.doGet] = [] :=
  ⟨(claim_C3_put_atomic ⟨[], 3, true⟩ 7).1 rfl,
   ((claim_C3_put_atomic (⟨[], 3, true⟩ : SharedQueue Nat) 7).2.2 [Op.doPut 7, Op.doGet] rfl).1⟩

/-- Repeatedly perform the atomic commit of `get` on a queue, recording each
returned value (`none` is the Python `None` return). -/
def drainN : SharedQueue α → Nat → SharedQueue α × List (Option α)
  | s, 0 => (s, [])
  | s, n + 1 =>
      let r := getStep s
      let d := drainN r.1 n
      (d.1, r.2 :: d.2)

theorem drainN_closed_queue (n : Nat) :
    ∀ (q : List α) (C : Nat),
      drainN (⟨q, C, true⟩ : SharedQueue α) n
        = (⟨q.drop n, C, true⟩,
           (q.take n).map some ++ List.replicate (n - q.length) none) := by
  induction n with
  | zero => intro q C; simp [drainN]
  | succ n ih =>
      intro q C
      cases q with
      | nil => simp [drainN, getStep, ih, List.replicate_succ]
      | cons x rest => simp [drainN, getStep, ih]

/-- C4: `close` is idempotent — a second `close` leaves the state unchanged,
so any number of redundant calls has the effect of one.  After any `close`,
every `put` returns `False` immediately (its wait-loop guard is falsified by
`closed`, so it reaches the check without blocking) and enqueues nothing,
while repeated `get` calls return the buffered items in order until the
buffer is empty and thereafter always return the `None` signal. -/
theorem claim_C4_close_idempotent (s : SharedQueue α) (x : α) (n : Nat) :
    close (close s) = close s
      ∧ putStep (close s) x = (close s, PutResult.rejectedClosed)
      ∧ drainN (close s) n
          = ({ close s with queue := s.queue.drop n },
             (s.queue.take n).map some ++ List.replicate (n - s.queue.length) none) := by
  refine ⟨rfl, by simp [putStep, close], ?_⟩
  have h := drainN_closed_queue n s.queue s.max_size
  exact h

/-- The wait loop of `SharedQueue.get` — `while len(self.queue) == 0 and not
self.closed` — with a schedule `env` of atomic operations performed by the
other threads during the waits.  `hasT` records whether a timeout was
supplied: with a timeout, once the schedule is exhausted (no item and no
close arrive) the remaining time elapses and the loop returns the state for
the in-loop `return None`; with no timeout the caller blocks forever
(modelled as `none`). -/
def getLoop : SharedQueue α → Bool → List (Op α) → Option (SharedQueue α)
  | s, hasT, [] =>
      if s.queue.isEmpty && !s.closed then
        (if hasT then some s else none)
      else some s
  | s, hasT, op :: rest =>
      if s.queue.isEmpty && !s.closed then getLoop (applyOp s op) hasT rest
      else some s

/-- `SharedQueue.get` with an environment schedule: run the wait loop, then
`if len(self.queue) == 0: return None`, else pop the head and return it. -/
def getT (s : SharedQueue α) (hasT : Bool) (env : List (Op α)) :
    Option (SharedQueue α × Option α) :=
  match getLoop s hasT env with
  | none => none
  | some r =>
      match r.queue with
      | [] => some (r, none)
      | x :: rest => some ({ r with queue := rest }, some x)

/-- C8: on an empty, open queue, `get` with a supplied timeout that elapses
before any item or `close` arrives (empty environment schedule) returns the
`None` signal with no side effects: the state — in particular the buffer and
the still-`false` closed flag — is returned unchanged, so the queue remains
open and usable, unlike the terminal closed-and-empty case. -/
theorem claim_C8_get_timeout (s : SharedQueue α)
    (h1 : s.queue = []) (h2 : s.closed = false) :
    getT s true [] = some (s, none) ∧ s.closed = false := by
  refine ⟨?_, h2⟩
  obtain ⟨q, C, c⟩ := s
  simp only at h1 h2
  subst h1
  subst h2
  rfl

theorem claim_C8_get_timeout_witness :
    getT (SharedQueue.mk0 3 : SharedQueue Nat) true [] = some (SharedQueue.mk0 3, none) :=
  (claim_C8_get_timeout (SharedQueue.mk0 3) rfl rfl).1

/-- Interference by the other threads around one iteration of `Producer.run`:
`pre` is what they do before the loop's unsynchronized read of
`self.shared_queue.closed`, `mid` what they do between that read and the
`put` call, and `wait` what they do while `put` waits. -/
structure Interf (α : Type) where
  pre : List (Op α)
  mid : List (Op α)
  wait : List (Op α)

/-- The wait loop of `SharedQueue.put` — `while len(self.queue) >=
self.max_size and not self.closed` — under an environment schedule: returns
the state at which the loop exits, with `false` when the schedule is
exhausted while the caller is still blocked on a full open queue. -/
def putWait : SharedQueue α → List (Op α) → SharedQueue α × Bool
  | s, [] =>
      if s.queue.length < s.max_size || s.closed then (s, true) else (s, false)
  | s, op :: rest =>
      if s.queue.length < s.max_size || s.closed then (s, true)
      else putWait (applyOp s op) rest

/-- `SharedQueue.put` under an environment schedule: run the wait loop, then
`if self.closed: return False`, else append the item and return `True`.
The returned `none` means the caller is still blocked when the schedule runs
out. -/
def put (s : SharedQueue α) (x : α) (env : List (Op α)) :
    SharedQueue α × Option Bool :=
  if (putWait s env).2 = false then ((putWait s env).1, none)
  else if (putWait s env).1.closed then ((putWait s env).1, some false)
  else ({ (putWait s env).1 with queue := (putWait s env).1.queue ++ [x] },
        some true)

theorem put_false_closed (s : SharedQueue α) (x : α) (env : List (Op α))
    (h : (put s x env).2 = some false) : (put s x env).1.closed = true := by
  unfold put at h ⊢
  split_ifs at h ⊢ with h1 h2
  · exact h2
  · simp at h

/-- Result of one sequentialized run of a `Producer` thread: the final queue
state, the final `items_produced`, the trace of `put` calls made together
with the value each returned, and whether the thread is still blocked inside
`put` when the environment schedule runs out. -/
structure ProdResult (α : Type) where
  state : SharedQueue α
  produced : Nat
  calls : List (α × Bool)
  stuck : Bool

/-- `Producer.run`: iterate the source in order; each iteration first reads
`self.shared_queue.closed` without the lock and breaks out of the loop when
it is set, otherwise calls `put` on the shared queue and increments
`self.items_produced` when `put` returned `True` (then continues with the
next source item either way).  `envs` supplies the other threads' operations
around each iteration and `k` is the current `items_produced`. -/
def producerRun : List α → List (Interf α) → SharedQueue α → Nat → ProdResult α
  | [], _, s, k => ⟨s, k, [], false⟩
  | x :: rest, envs, s, k =>
      let e := envs.headD ⟨[], [], []⟩
      let s1 := runOps s e.pre
      if s1.closed then ⟨s1, k, [], false⟩
      else
        let r := put (runOps s1 e.mid) x e.wait
        match r.2 with
        | none => ⟨r.1, k, [], true⟩
        | some ok =>
            let res := producerRun rest envs.tail r.1 (if ok then k + 1 else k)
            ⟨res.state, res.produced, (x, ok) :: res.calls, res.stuck⟩

theorem producerRun_calls_closed (src : List α) :
    ∀ (envs : List (Interf α)) (s : SharedQueue α) (k : Nat),
      s.closed = true → (producerRun src envs s k).calls = [] := by
  cases src with
  | nil => intro envs s k _; simp [producerRun]
  | cons x rest =>
      intro envs s k h
      have hc : (runOps s (envs.headD ⟨[], [], []⟩).pre).closed = true :=
        runOps_closed _ s h
      simp only [producerRun]
      rw [if_pos hc]

theorem producerRun_produced (src : List α) :
    ∀ (envs : List (Interf α)) (s : SharedQueue α) (k : Nat),
      (producerRun src envs s k).produced
        = k + ((producerRun src envs s k).calls.filter (fun c => c.2)).length := by
  induction src with
  | nil => intro envs s k; simp [producerRun]
  | cons x rest ih =>
      intro envs s k
      simp only [producerRun]
      split
      · simp
      · split
        · simp
        · rename_i ok heq
          dsimp only
          rw [ih]
          cases ok with
          | false => simp [List.filter_cons]
          | true => simp [List.filter_cons]; omega

theorem producerRun_calls_prefix (src : List α) :
    ∀ (envs : List (Interf α)) (s : SharedQueue α) (k : Nat),
      (producerRun src envs s k).calls.map Prod.fst <+: src := by
  induction src with
  | nil => intro envs s k; simp [producerRun]
  | cons x rest ih =>
      intro envs s k
      simp only [producerRun]
      split
      · simp
      · split
        · simp
        · rename_i ok heq
          dsimp only
          rw [List.map_cons, List.cons_prefix_cons]
          exact ⟨rfl, ih envs.tail _ _⟩

theorem producerRun_false_last (src : List α) :
    ∀ (envs : List (Interf α)) (s : SharedQueue α) (k : Nat)
      (l1 : List (α × Bool)) (x : α) (l2 : List (α × Bool)),
      (producerRun src envs s k).calls = l1 ++ (x, false) :: l2 → l2 = [] := by
  induction src with
  | nil =>
      intro envs s k l1 x l2 h
      simp [producerRun] at h
  | cons y rest ih =>
      intro envs s k l1 x l2 h
      simp only [producerRun] at h
      split at h
      · simp at h
      · split at h
        · simp at h
        · rename_i ok heq
          simp only at h
          cases l1 with
          | nil =>
              simp at h
              obtain ⟨⟨hy, hok⟩, hcalls⟩ := h
              subst hok
              have hclosed := put_false_closed _ y _ heq
              have := producerRun_calls_closed rest envs.tail _
                (if (false : Bool) then k + 1 else k) hclosed
              simp at this
              rw [← hcalls]
              exact this
          | cons c l1t =>
              simp at h
              exact ih envs.tail _ _ l1t x l2 h.2

/-- C6: for every source sequence, every environment schedule and every
starting state, when a `put` call made by `Producer.run` returns `False` the
feeder makes no further `put` call (a `False` result is always the last
entry of the call trace); the `put` calls made follow the source order from
the front, so all remaining source items are dropped; and the final
`items_produced` counts exactly the `put` calls that returned `True`, so the
partial produced-count stays retrievable on the `Producer` object. -/
theorem claim_C6_feeder_stops (src : List α) (envs : List (Interf α))
    (s : SharedQueue α) :
    (∀ (l1 : List (α × Bool)) (x : α) (l2 : List (α × Bool)),
        (producerRun src envs s 0).calls = l1 ++ (x, false) :: l2 → l2 = [])
      ∧ (producerRun src envs s 0).calls.map Prod.fst <+: src
      ∧ (producerRun src envs s 0).produced
          = ((producerRun src envs s 0).calls.filter (fun c => c.2)).length := by
  refine ⟨fun l1 x l2 h => producerRun_false_last src envs s 0 l1 x l2 h,
    producerRun_calls_prefix src envs s 0, ?_⟩
  simpa using producerRun_produced src envs s 0

theorem claim_C6_feeder_stops_witness :
    (producerRun [1, 2] [⟨[], [], []⟩, ⟨[], [], [Op.doClose]⟩]
        (SharedQueue.mk0 1 : SharedQueue Nat) 0).calls.map Prod.fst <+: [1, 2]
      ∧ ([] : List (Nat × Bool)) = [] :=
  ⟨(claim_C6_feeder_stops [1, 2] [⟨[], [], []⟩, ⟨[], [], [Op.doClose]⟩]
      (SharedQueue.mk0 1)).2.1,
   (claim_C6_feeder_stops [1, 2] [⟨[], [], []⟩, ⟨[], [], [Op.doClose]⟩]
      (SharedQueue.mk0 1)).1 [(1, true)] 2 [] (by decide)⟩

/-- Python's `get` returns either the popped item or `None`; when the items
themselves may be the Python value `None`, the two returns are the same
object and the caller cannot tell them apart.  `isNone` says which Lean
values stand for the Python `None`; `pyGetResult` is what the Python caller
of `get` observes of an atomic `get` outcome. -/
def pyGetResult (isNone : α → Bool) (r : Option α) : Option α :=
  match r with
  | some x => if isNone x then none else some x
  | none => none

/-- `Consumer.run`: loop while `self.running`; call `get(timeout=0.5)`; if
the returned value `is not None`, append it to the shared destination and
increment `self.items_consumed`; otherwise exit when the queue is now closed
and empty, else poll again.  Sequential semantics (no interference while the
consumer runs); `fuel` bounds the number of loop iterations and the final
`Bool` is `true` when the loop exited by itself within that bound. -/
def consumerRun (isNone : α → Bool) :
    Nat → Bool → SharedQueue α → List α → Nat →
      SharedQueue α × List α × Nat × Bool
  | 0, _, s, dest, k => (s, dest, k, false)
  | fuel + 1, running, s, dest, k =>
      if !running then (s, dest, k, true)
      else
        match pyGetResult isNone (getStep s).2 with
        | some x =>
            consumerRun isNone fuel running (getStep s).1 (dest ++ [x]) (k + 1)
        | none =>
            if (getStep s).1.closed && (getStep s).1.queue.isEmpty then
              ((getStep s).1, dest, k, true)
            else consumerRun isNone fuel running (getStep s).1 dest k

theorem consumerRun_step (isNone : α → Bool) (fuel : Nat) (s : SharedQueue α)
    (dest : List α) (k : Nat) :
    consumerRun isNone (fuel + 1) true s dest k
      = match pyGetResult isNone (getStep s).2 with
        | some x => consumerRun isNone fuel true (getStep s).1 (dest ++ [x]) (k + 1)
        | none =>
            if (getStep s).1.closed && (getStep s).1.queue.isEmpty then
              ((getStep s).1, dest, k, true)
            else consumerRun isNone fuel true (getStep s).1 dest k := by
  rfl

theorem consumerRun_drain_closed (q : List (Option β)) :
    ∀ (C : Nat) (dest : List (Option β)) (k : Nat),
      consumerRun Option.isNone (q.length + 1) true
          (⟨q, C, true⟩ : SharedQueue (Option β)) dest k
        = (⟨[], C, true⟩, dest ++ q.filter (fun x => x.isSome),
           k + (q.filter (fun x => x.isSome)).length, true) := by
  induction q with
  | nil =>
      intro C dest k
      rw [consumerRun_step]
      simp [getStep, pyGetResult]
  | cons x rest ih =>
      intro C dest k
      rw [List.length_cons, consumerRun_step]
      cases x with
      | none =>
          cases rest with
          | nil => simp [getStep, pyGetResult]
          | cons y ys =>
              have h := ih C dest k
              simp only [List.length_cons] at h
              simp only [getStep, pyGetResult, Option.isNone_none, if_true]
              simp [h]
      | some b =>
          have h := ih C (dest ++ [some b]) (k + 1)
          simp only [List.length_cons] at h
          simp only [getStep, pyGetResult]
          simp [h, List.filter_cons]
          omega

/-- C10: when the enqueued items may themselves be the Python value `None`
(items of type `Option β`, with `Option.isNone` marking which values are the
Python `None`), `get`'s return for a dequeued `None` item is the very same
value as the no-item signal, so the consumer cannot tell them apart: the
first conjunct shows the observable `get` outcome on a queue whose head is a
`None` item equals the outcome on an empty queue.  Consequently, draining a
closed queue delivers to the destination exactly the non-`None` items, in
order, and counts only those — every `None` item that entered the queue is
silently discarded (second conjunct) — and on a closed queue holding only a
`None` item the consumer exits immediately with nothing appended and nothing
counted (third conjunct). -/
theorem claim_C10_none_conflated (rest q dest : List (Option β)) (C k : Nat) :
    pyGetResult Option.isNone
        (getStep (⟨none :: rest, C, false⟩ : SharedQueue (Option β))).2
      = pyGetResult Option.isNone
          (getStep (⟨[], C, false⟩ : SharedQueue (Option β))).2
    ∧ consumerRun Option.isNone (q.length + 1) true
          (⟨q, C, true⟩ : SharedQueue (Option β)) dest k
        = (⟨[], C, true⟩, dest ++ q.filter (fun x => x.isSome),
           k + (q.filter (fun x => x.isSome)).length, true)
    ∧ consumerRun Option.isNone 2 true
          (⟨[none], C, true⟩ : SharedQueue (Option β)) dest k
        = (⟨[], C, true⟩, dest, k, true) := by
  refine ⟨rfl, consumerRun_drain_closed q C dest k, ?_⟩
  have h := consumerRun_drain_closed ([none] : List (Option β)) C dest k
  simpa using h

/-- A `Producer` thread object: its source list, its `items_produced`
counter, and whether `Thread.start` has been called on it. -/
structure Producer (α : Type) where
  source : List α
  items_produced : Nat
  started : Bool
deriving DecidableEq

/-- A `Consumer` thread object: its `items_consumed` counter, its `running`
flag (initially `True`), and whether `Thread.start` has been called on it. -/
structure Consumer where
  items_consumed : Nat
  running : Bool
  started : Bool
deriving DecidableEq

/-- `ProducerConsumerSystem` state: one shared queue, the registered
producer and consumer thread objects, and the shared destination list. -/
structure PCSystem (α : Type) where
  shared_queue : SharedQueue α
  producers : List (Producer α)
  consumers : List Consumer
  destination : List α
deriving DecidableEq

/-- `ProducerConsumerSystem.__init__(queue_size)`. -/
def mkSystem (queue_size : Nat) : PCSystem α :=
  ⟨SharedQueue.mk0 queue_size, [], [], []⟩

/-- `ProducerConsumerSystem.add_producer`: unconditionally construct a new
`Producer` (counter `0`, thread not yet started) and append it to
`self.producers`, returning the handle.  The method has no check of whether
`start` already ran and no failure path.  (The auto-generated name string is
omitted; it is only used for console output.) -/
def add_producer (sys : PCSystem α) (source : List α) :
    PCSystem α × Producer α :=
  ({ sys with producers := sys.producers ++ [⟨source, 0, false⟩] },
   ⟨source, 0, false⟩)

/-- `ProducerConsumerSystem.add_consumer`: likewise for consumers. -/
def add_consumer (sys : PCSystem α) : PCSystem α × Consumer :=
  ({ sys with consumers := sys.consumers ++ [⟨0, true, false⟩] },
   ⟨0, true, false⟩)

/-- `ProducerConsumerSystem.start`: call `Thread.start` on every registered
consumer, then on every registered producer. -/
def start (sys : PCSystem α) : PCSystem α :=
  { sys with
      consumers := sys.consumers.map (fun c => { c with started := true }),
      producers := sys.producers.map (fun p => { p with started := true }) }

/-- C9 as stated is false: calling `add_producer` after `start()` raises
nothing and reports nothing — it silently appends a fresh (unstarted)
`Producer` to the running system and hands back its handle.  The embedding
of `add_producer` is a total function with no error outcome because the
method body has no started-flag check and no raise; this counterexample
evaluates it on a concrete started system and shows the thread list grows
from 0 to 1 entries. -/
theorem claim_C9_cex :
    (add_producer (start (mkSystem 5 : PCSystem Nat)) [1, 2]).1.producers.length = 1
      ∧ (add_producer (start (mkSystem 5 : PCSystem Nat)) [1, 2]).2.started = false :=
  ⟨rfl, rfl⟩

/-- C9, amended: `add_producer` and `add_consumer` called after `start()` do
not fail fast; they silently register a new thread object (with counter `0`
and not yet started, so it will not run unless `start` is called again) at
the end of the corresponding list and return it. -/
theorem claim_C9_amended (sys : PCSystem α) (src : List α) :
    (add_producer (start sys) src).1.producers
        = (start sys).producers ++ [⟨src, 0, false⟩]
      ∧ (add_producer (start sys) src).2 = (⟨src, 0, false⟩ : Producer α)
      ∧ (add_consumer (start sys)).1.consumers
          = (start sys).consumers ++ [⟨0, true, false⟩] :=
  ⟨rfl, rfl, rfl⟩

/-- One step of the orchestrator's shutdown sequence, recorded so the order
of `wait_for_completion`'s actions can be stated. -/
inductive SysEvent where
  | joinedProducer
  | closedQueue
  | joinedConsumer
deriving DecidableEq

/-- The `for producer in self.producers: producer.join()` loop of
`wait_for_completion`: each `join` waits until that producer's `run` has
finished (modelled by running it to completion on a sequential schedule). -/
def joinProducers : List (Producer α) → SharedQueue α →
    List (Producer α) × SharedQueue α × List SysEvent
  | [], s => ([], s, [])
  | p :: rest, s =>
      let r := producerRun p.source [] s p.items_produced
      let t := joinProducers rest r.state
      ({ p with items_produced := r.produced } :: t.1, t.2.1,
       SysEvent.joinedProducer :: t.2.2)

/-- The `for consumer in self.consumers: consumer.join()` loop: each `join`
waits until that consumer's `run` has finished (sequential schedule, `fuel`
bounding its polling loop). -/
def joinConsumers (isNone : α → Bool) (fuel : Nat) :
    List Consumer → SharedQueue α → List α →
      List Consumer × SharedQueue α × List α × List SysEvent
  | [], s, dest => ([], s, dest, [])
  | c :: rest, s, dest =>
      let r := consumerRun isNone fuel c.running s dest c.items_consumed
      let t := joinConsumers isNone fuel rest r.1 r.2.1
      ({ c with items_consumed := r.2.2.1 } :: t.1, t.2.1, t.2.2.1,
       SysEvent.joinedConsumer :: t.2.2.2)

/-- `ProducerConsumerSystem.wait_for_completion`: join every producer, then
call `self.shared_queue.close()`, then join every consumer, then return. -/
def wait_for_completion (isNone : α → Bool) (fuel : Nat) (sys : PCSystem α) :
    PCSystem α × List SysEvent :=
  let p := joinProducers sys.producers sys.shared_queue
  let s2 := close p.2.1
  let c := joinConsumers isNone fuel sys.consumers s2 sys.destination
  ({ sys with
      shared_queue := c.2.1, producers := p.1, consumers := c.1,
      destination := c.2.2.1 },
   p.2.2 ++ SysEvent.closedQueue :: c.2.2.2)

theorem joinProducers_events (ps : List (Producer α)) :
    ∀ s : SharedQueue α,
      (joinProducers ps s).2.2 = List.replicate ps.length SysEvent.joinedProducer := by
  induction ps with
  | nil => intro s; simp [joinProducers]
  | cons p rest ih => intro s; simp [joinProducers, ih, List.replicate_succ]

theorem joinConsumers_events (isNone : α → Bool) (fuel : Nat) (cs : List Consumer) :
    ∀ (s : SharedQueue α) (dest : List α),
      (joinConsumers isNone fuel cs s dest).2.2.2
        = List.replicate cs.length SysEvent.joinedConsumer := by
  induction cs with
  | nil => intro s dest; simp [joinConsumers]
  | cons c rest ih => intro s dest; simp [joinConsumers, ih, List.replicate_succ]

theorem consumerRun_closed_mono (isNone : α → Bool) (fuel : Nat) :
    ∀ (running : Bool) (s : SharedQueue α) (dest : List α) (k : Nat),
      s.closed = true → ((consumerRun isNone fuel running s dest k).1).closed = true := by
  induction fuel with
  | zero => intro running s dest k h; simpa [consumerRun] using h
  | succ fuel ih =>
      intro running s dest k h
      have hs : ((getStep s).1).closed = true := by
        simp only [getStep]
        cases s.queue <;> simpa using h
      simp only [consumerRun]
      split
      · simpa using h
      · split
        · exact ih _ _ _ _ hs
        · split
          · simpa using hs
          · exact ih _ _ _ _ hs

theorem joinConsumers_closed (isNone : α → Bool) (fuel : Nat) (cs : List Consumer) :
    ∀ (s : SharedQueue α) (dest : List α), s.closed = true →
      ((joinConsumers isNone fuel cs s dest).2.1).closed = true := by
  induction cs with
  | nil => intro s dest h; simpa [joinConsumers] using h
  | cons c rest ih =>
      intro s dest h
      simp only [joinConsumers]
      exact ih _ _ (consumerRun_closed_mono isNone fuel c.running s dest c.items_consumed h)

/-- C5: `wait_for_completion` performs exactly the sequence: join every
producer thread (one join per registered producer, in order), then one
single `close()` on the queue, then join every consumer thread, then return.
Its action record is the producer joins, then exactly one `close`, then the
consumer joins, and the queue is closed in the final state — so close is
issued exactly once per call, after all feeders have finished and before any
drainer is joined. -/
theorem claim_C5_shutdown_sequence (isNone : α → Bool) (fuel : Nat) (sys : PCSystem α) :
    (wait_for_completion isNone fuel sys).2
        = List.replicate sys.producers.length SysEvent.joinedProducer
          ++ SysEvent.closedQueue ::
              List.replicate sys.consumers.length SysEvent.joinedConsumer
      ∧ (wait_for_completion isNone fuel sys).2.count SysEvent.closedQueue = 1
      ∧ (wait_for_completion isNone fuel sys).1.shared_queue.closed = true := by
  have he : (wait_for_completion isNone fuel sys).2
      = List.replicate sys.producers.length SysEvent.joinedProducer
        ++ SysEvent.closedQueue ::
            List.replicate sys.consumers.length SysEvent.joinedConsumer := by
    simp [wait_for_completion, joinProducers_events, joinConsumers_events]
  refine ⟨he, ?_, ?_⟩
  · rw [he]
    simp [List.count_append, List.count_replicate, List.count_cons]
  · simp only [wait_for_completion]
    exact joinConsumers_closed isNone fuel sys.consumers _ sys.destination (by simp [close])

/-- Result of `Producer.run` when the source iterator itself can raise:
`escaped` is the exception that propagated out of `run`.  `Producer.run` has
no `try`/`except`, so an exception raised by the source's `__next__` aborts
the `for` loop and escapes into the thread machinery, which prints it and
stores it nowhere; `Thread.join` does not re-raise it. -/
structure ProdExcResult (E α : Type) where
  state : SharedQueue α
  produced : Nat
  escaped : Option E
  stuck : Bool
deriving DecidableEq

/-- `Producer.run` over a source whose `__next__` may raise (an
`Except.error` element models the raising step).  The `for` statement
requests the next item first, so a raising step aborts the loop before that
iteration's `closed` check; an `ok` item is processed exactly as in
`producerRun` under the sequential schedule (no interference while `put`
waits, so a `put` on a full open queue stays blocked). -/
def producerRunExc : List (Except E α) → SharedQueue α → Nat → ProdExcResult E α
  | [], s, k => ⟨s, k, none, false⟩
  | Except.error e :: _, s, k => ⟨s, k, some e, false⟩
  | Except.ok x :: rest, s, k =>
      if s.closed then ⟨s, k, none, false⟩
      else
        match (put s x []).2 with
        | none => ⟨(put s x []).1, k, none, true⟩
        | some ok => producerRunExc rest (put s x []).1 (if ok then k + 1 else k)

/-- Everything the caller of `ProducerConsumerSystem` can read back after a
run with one producer over a fallible source and one consumer: `start`, then
`wait_for_completion` (`producer.join()` returns `None` and does not
re-raise the exception that escaped `run`; then `close()`; then
`consumer.join()`), then `get_results()`.  The observables are the
destination snapshot and the producer's `items_produced` attribute; the
class keeps no record of errors anywhere. -/
def runSystemExc (capacity : Nat) (source : List (Except E α))
    (isNone : α → Bool) (fuel : Nat) : List α × Nat :=
  let r := producerRunExc source (SharedQueue.mk0 capacity) 0
  let c := consumerRun isNone fuel true (close r.state) [] 0
  (c.2.1, r.produced)

theorem producerRunExc_error_trunc (pre : List (Except E α)) :
    ∀ (post : List (Except E α)) (e : E) (s : SharedQueue α) (k : Nat),
      (producerRunExc (pre ++ Except.error e :: post) s k).state
          = (producerRunExc pre s k).state
        ∧ (producerRunExc (pre ++ Except.error e :: post) s k).produced
            = (producerRunExc pre s k).produced
        ∧ (producerRunExc (pre ++ Except.error e :: post) s k).stuck
            = (producerRunExc pre s k).stuck
        ∧ ((producerRunExc (pre ++ Except.error e :: post) s k).escaped
              = (producerRunExc pre s k).escaped
            ∨ (producerRunExc (pre ++ Except.error e :: post) s k).escaped
                = some e) := by
  induction pre with
  | nil =>
      intro post e s k
      simp [producerRunExc]
  | cons item pre ih =>
      intro post e s k
      cases item with
      | error e2 => simp [producerRunExc]
      | ok x =>
          simp only [List.cons_append, producerRunExc]
          split
          · simp
          · split
            · simp
            · exact ih post e _ _

/-- C7, corrected.  The claim as stated is false (see the counterexample):
the code has no error handling at all.  What does hold: when the source
raises while producing an item, `Producer.run` stops at that point — no
later source item is offered to the queue, the queue state, the
`items_produced` counter (which stays retrievable on the `Producer` object)
and the blocked-flag are exactly those of a run whose source simply ended
before the failing item — and the exception at best escapes `run` into the
thread machinery (the `escaped` slot), which `wait_for_completion` never
reads; consequently the orchestrator's observables (`get_results` and the
counters) on the failing source are identical to those on the truncated
source, i.e. the caller receives a silently-truncated result. -/
theorem claim_C7_amended (pre post : List (Except E α)) (e : E)
    (s : SharedQueue α) (k capacity fuel : Nat) (isNone : α → Bool) :
    (producerRunExc (pre ++ Except.error e :: post) s k).state
        = (producerRunExc pre s k).state
      ∧ (producerRunExc (pre ++ Except.error e :: post) s k).produced
          = (producerRunExc pre s k).produced
      ∧ ((producerRunExc (pre ++ Except.error e :: post) s k).escaped
            = (producerRunExc pre s k).escaped
          ∨ (producerRunExc (pre ++ Except.error e :: post) s k).escaped
              = some e)
      ∧ runSystemExc capacity (pre ++ Except.error e :: post) isNone fuel
          = runSystemExc capacity pre isNone fuel := by
  obtain ⟨h1, h2, _h3, h4⟩ := producerRunExc_error_trunc pre post e s k
  obtain ⟨g1, g2, _g3, _g4⟩ :=
    producerRunExc_error_trunc pre post e (SharedQueue.mk0 capacity) 0
  refine ⟨h1, h2, h4, ?_⟩
  simp [runSystemExc, g1, g2]

/-- C7 counterexample: a concrete system — capacity 10, one producer whose
source yields `1`, then raises, then would yield `2`, one consumer — ends in
exactly the same observable state as the same system whose source simply
ends after `1`: `get_results()` is `[1]` and `items_produced` is `1` in
both, and no component of the program's state records the error.  The
orchestrator therefore does not expose the source failure to its caller; it
returns a silently-truncated result, contradicting the claim. -/
theorem claim_C7_cex :
    runSystemExc 10 [Except.ok 1, Except.error "boom", Except.ok (2 : Nat)]
        (fun _ => false) 5
      = runSystemExc 10 ([Except.ok 1] : List (Except String Nat)) (fun _ => false) 5
    ∧ runSystemExc 10 [Except.ok 1, Except.error "boom", Except.ok (2 : Nat)]
        (fun _ => false) 5
      = ([1], 1) := by
  exact ⟨rfl, rfl⟩

end PC
